import Mathlib

/-!
Verification development for the `decimation` expression engine
(`src/core.js` of the repository, reproduced here as a shallow embedding).

The engine evaluates infix arithmetic / comparison expressions written as
tagged template literals against an arbitrary-precision decimal backend:
a tokenizer turns the literal fragments into a token stream (with a VALUE
placeholder token at each interpolation slot), a precedence-climbing
recursive-descent parser builds an AST under one of two modes
(`math` = arithmetic only, `is` = exactly one top-level comparison),
a per-mode WeakMap cache memoizes the AST by fragment-sequence identity,
and an interpreter evaluates the AST against preprocessed runtime values.

The decimal backend itself (decimal.js) is outside the repository; it is
modelled here over ℚ following the capability interface stated in the
specification.  Errors, which the source raises as exceptions with message
strings, are modelled as a structured error type; the constructor names
follow the source's messages.
-/

/-- Binary operators of the engine, mirroring `type Operator` in the source:
`< <= == > >= != + - * / **`. -/
inductive Op
  | lt | le | eq | gt | ge | ne | add | sub | mul | div | pow
deriving DecidableEq, Repr

/-- Tokens, mirroring `type Token` in the source. -/
inductive Token
  | VALUE (value : Nat)
  | NUMBER (value : String)
  | OPERATOR (value : Op)
  | FUNCTION (value : String)
  | LPAREN
  | RPAREN
  | COMMA
  | EOF
deriving DecidableEq, Repr

/-- Evaluation mode: the source passes the strings `'math'` or `'is'`. -/
inductive Mode
  | math
  | is
deriving DecidableEq, Repr

/-- Unary operator of an AST `unary` node; the source's AST type restricts
it to `'+' | '-'`. -/
inductive UnaryOp
  | plus
  | minus
deriving DecidableEq, Repr

/-- AST nodes, mirroring `type ASTNode` in the source. -/
inductive ASTNode
  | value (index : Nat)
  | number (value : String)
  | unary (op : UnaryOp) (operand : ASTNode)
  | binary (op : Op) (left : ASTNode) (right : ASTNode)
  | function (name : String) (args : List ASTNode)
deriving Repr

/-- Errors raised by the engine.  The source throws `Error` objects with
message strings; each constructor stands for one of those messages (with
its interpolated data as a payload).  The last five model failures that in
JavaScript arise inside the interpreter or the decimal backend: the
`assert` calls of `interpret`, a method invocation on a value that is not
a backend instance (a JavaScript `TypeError`), and the backend constructor
rejecting a non-scalar argument.  `outOfFuel` is an artifact of the
embedding making the parser's recursion explicitly total; it corresponds
to no behavior of the source. -/
inductive EvalError
  | unexpectedCharacter (c : Char)
  | expectedLParenAfterFunction (name : String)
  | expectedCommaOrCloseParen
  | unknownFunction (name : String)
  | clampArgumentCount
  | argumentCount (name : String)
  | unexpectedToken (t : Token)
  | expectedCloseParen
  | comparisonInMath (op : Op)
  | comparisonNested (op : Op)
  | chainedComparison
  | missingComparison
  | trailingTokens
  | unaryOperandNotDecimal
  | binaryOperandsNotDecimal
  | methodOnNonDecimal (name : String)
  | invalidDecimalValue
  | sumRequiresArray
  | outOfFuel
deriving DecidableEq, Repr

/-- Modelled from the spec: the error taxonomy of the specification's §7
classifies the four mode-consistency failures as `ModeError`.  The source
itself raises plain `Error`s; this predicate records the classification. -/
def EvalError.isModeError : EvalError → Bool
  | .comparisonInMath _ => true
  | .comparisonNested _ => true
  | .chainedComparison => true
  | .missingComparison => true
  | _ => false

/-- Modelled from the spec: the error taxonomy of the specification's §7
classifies runtime shape failures (a value supplied to an operator or
function that is not of the required shape) as `TypeError`. -/
def EvalError.isTypeError : EvalError → Bool
  | .unaryOperandNotDecimal => true
  | .binaryOperandsNotDecimal => true
  | .methodOnNonDecimal _ => true
  | .invalidDecimalValue => true
  | .sumRequiresArray => true
  | _ => false

/-- Operator precedence (higher number = higher precedence); mirrors the
source's `PRECEDENCE` record. -/
def PRECEDENCE : Op → Nat
  | .lt => 1
  | .le => 1
  | .eq => 1
  | .gt => 1
  | .ge => 1
  | .ne => 1
  | .add => 2
  | .sub => 2
  | .mul => 3
  | .div => 3
  | .pow => 4

/-- Right-associative operators; mirrors the source's `RIGHT_ASSOC` set. -/
def RIGHT_ASSOC : Op → Bool
  | .pow => true
  | _ => false

/-- Comparison operators (only allowed in `is` mode); mirrors the source's
`COMPARISON_OPS` set. -/
def COMPARISON_OPS : Op → Bool
  | .lt => true
  | .le => true
  | .eq => true
  | .gt => true
  | .ge => true
  | .ne => true
  | _ => false

/-- Consumes the maximal run of digits and decimal points, returning the
run and the remaining characters.  This is the lookahead loop of the
source's number branch in `tokenize` (`str[j+1] >= '0' && str[j+1] <= '9'
|| str[j+1] === '.'`). -/
def numRun : List Char → List Char × List Char
  | [] => ([], [])
  | c :: rest =>
    if c.isDigit || c == '.' then
      ((c :: (numRun rest).1), (numRun rest).2)
    else
      ([], c :: rest)

/-- Consumes the maximal run of lowercase letters, returning the run and
the remaining characters; the lookahead loop of the source's function-name
branch in `tokenize` (`str[j+1] >= 'a' && str[j+1] <= 'z'`). -/
def nameRun : List Char → List Char × List Char
  | [] => ([], [])
  | c :: rest =>
    if c.isLower then
      ((c :: (nameRun rest).1), (nameRun rest).2)
    else
      ([], c :: rest)

/-- One step of the source's character loop in `tokenize`: what the loop
body does for the character `c` with lookahead into `rest` — skip
whitespace, emit a token (possibly consuming lookahead characters), or
raise the lexical error.  The branch order is the source's `if`/`else if`
chain. -/
inductive LexStep
  | skip (rest : List Char)
  | emit (t : Token) (rest : List Char)
  | err (e : EvalError)
deriving Repr

/-- The source's loop body for one character: the `if`/`else if` chain of
`tokenize`, written as a pattern match.  The arms are tried in the
source's order, so the greedy two-character operators (`**`, `==`, `!=`,
`<=`, `>=`) are matched before the single-character ones, and a `=` or
`!` not followed by `=` falls through to the lexical error, exactly as in
the source. -/
def lexStep : Char → List Char → LexStep
  | ' ', rest => .skip rest
  | '\t', rest => .skip rest
  | '\n', rest => .skip rest
  | '(', rest => .emit Token.LPAREN rest
  | ')', rest => .emit Token.RPAREN rest
  | ',', rest => .emit Token.COMMA rest
  | '*', '*' :: rest => .emit (Token.OPERATOR Op.pow) rest
  | '=', '=' :: rest => .emit (Token.OPERATOR Op.eq) rest
  | '!', '=' :: rest => .emit (Token.OPERATOR Op.ne) rest
  | '<', '=' :: rest => .emit (Token.OPERATOR Op.le) rest
  | '>', '=' :: rest => .emit (Token.OPERATOR Op.ge) rest
  | '<', rest => .emit (Token.OPERATOR Op.lt) rest
  | '>', rest => .emit (Token.OPERATOR Op.gt) rest
  | '+', rest => .emit (Token.OPERATOR Op.add) rest
  | '-', rest => .emit (Token.OPERATOR Op.sub) rest
  | '*', rest => .emit (Token.OPERATOR Op.mul) rest
  | '/', rest => .emit (Token.OPERATOR Op.div) rest
  | c, rest =>
    if c.isDigit then
      .emit (Token.NUMBER (String.mk (c :: (numRun rest).1))) (numRun rest).2
    else if c.isLower then
      .emit (Token.FUNCTION (String.mk (c :: (nameRun rest).1))) (nameRun rest).2
    else
      .err (.unexpectedCharacter c)

/-- Tokenizes one literal fragment, character by character; the inner
`for (let j ...)` loop of the source's `tokenize`, with `lexStep` as the
loop body.  The fuel argument makes the recursion structural;
`fuel = chars.length + 1` always suffices since every step consumes at
least one character. -/
def tokenizeChars : Nat → List Char → Except EvalError (List Token)
  | 0, _ => .error .outOfFuel
  | _ + 1, [] => .ok []
  | fuel + 1, c :: rest =>
    match lexStep c rest with
    | .skip rest2 => tokenizeChars fuel rest2
    | .emit t rest2 => Except.map (fun ts => t :: ts) (tokenizeChars fuel rest2)
    | .err e => .error e

/-- Tokenizes the fragment list starting at fragment index `i`: each
fragment's characters are tokenized, and a `VALUE i` token is appended
after every fragment except the last (the interpolation slot), mirroring
the outer loop of the source's `tokenize`. -/
def tokenizeList : Nat → List String → Except EvalError (List Token)
  | _, [] => .ok []
  | _, [s] => tokenizeChars (s.data.length + 1) s.data
  | i, s :: s' :: rest =>
    match tokenizeChars (s.data.length + 1) s.data with
    | .error e => .error e
    | .ok ts =>
      match tokenizeList (i + 1) (s' :: rest) with
      | .error e => .error e
      | .ok more => .ok (ts ++ Token.VALUE i :: more)

/-- Tokenizes a template string array into tokens; mirrors the source's
`tokenize`, including the final `EOF` token. -/
def tokenize (template : List String) : Except EvalError (List Token) :=
  Except.map (fun ts => ts ++ [Token.EOF]) (tokenizeList 0 template)

/-- Modelled from the spec: a raw interpolated value supplied at the call
site (`DecimalValue | DecimalInstance | DecimalInstance[]` in the source's
types).  Scalars (numbers, numeric strings, bigints) are modelled by the
rational they denote; a backend instance carries its rational value; an
array carries its raw elements unchanged. -/
inductive RawValue
  | num (value : ℚ)
  | dec (value : ℚ)
  | arr (elems : List RawValue)
deriving Repr

/-- A value flowing through the interpreter: a backend numeric instance,
an array (passed through preprocessing unchanged), a boolean (result of a
comparison), or JavaScript `undefined` (an out-of-range value lookup). -/
inductive Value
  | dec (value : ℚ)
  | arr (elems : List RawValue)
  | bool (b : Bool)
  | undef
deriving Repr

/-- Pre-process values: convert to Decimal, keep arrays as-is; mirrors the
source's `preprocessValues` (`val instanceof DecimalConstructor ? val :
Array.isArray(val) ? val : new DecimalConstructor(val)`). -/
def preprocessValues (values : List RawValue) : List Value :=
  values.map fun val =>
    match val with
    | .dec q => Value.dec q
    | .arr elems => Value.arr elems
    | .num q => Value.dec q

/-- Splits a character list at the first decimal point, if any. -/
def splitAtDot : List Char → List Char × Option (List Char)
  | [] => ([], none)
  | '.' :: rest => ([], some rest)
  | c :: rest =>
    ((c :: (splitAtDot rest).1), (splitAtDot rest).2)

/-- Numeric value of a digit run. -/
def natOfDigits (l : List Char) : Nat :=
  l.foldl (fun acc c => 10 * acc + (c.toNat - ('0').toNat)) 0

/-- Modelled from the spec: construction of a backend numeric value from
literal text (`new Decimal(text)` for the texts the tokenizer can
produce: runs of digits and decimal points).  A run with more than one
decimal point is invalid and construction fails, which is the
"fail downstream numeric construction" behavior the specification
describes for malformed number tokens. -/
def decimalOfChars (l : List Char) : Option ℚ :=
  match splitAtDot l with
  | (intPart, none) =>
    if intPart ≠ [] ∧ intPart.all Char.isDigit then
      some ((natOfDigits intPart : ℚ))
    else
      none
  | (intPart, some frac) =>
    if intPart ≠ [] ∧ intPart.all Char.isDigit ∧ frac.all Char.isDigit then
      some ((natOfDigits intPart : ℚ) + (natOfDigits frac : ℚ) / (10 : ℚ) ^ frac.length)
    else
      none

/-- Modelled from the spec: the backend `pow` primitive, for the integer
exponents the verified scenarios use (`x ** n`); a non-integer exponent is
outside the modelled domain and is mapped to zero. -/
def decimalPow (a b : ℚ) : ℚ :=
  if b.den = 1 then a ^ b.num else 0

/-- Modelled from the spec: the backend `floor` primitive (round toward
negative infinity to an integer). -/
def decimalFloor (q : ℚ) : ℚ :=
  ((q.num.fdiv (q.den : ℤ) : ℤ) : ℚ)

/-- Modelled from the spec: the backend `ceil` primitive (round toward
positive infinity to an integer). -/
def decimalCeil (q : ℚ) : ℚ :=
  (((-((-q.num).fdiv (q.den : ℤ))) : ℤ) : ℚ)

/-- Modelled from the spec: the backend `round` primitive (round to the
nearest integer, halves up). -/
def decimalRound (q : ℚ) : ℚ :=
  decimalFloor (q + 1 / 2)

/-- Modelled from the spec: the backend `clamp(min, max)` primitive
(restrict the receiver between `min` and `max`). -/
def decimalClamp (x lo hi : ℚ) : ℚ :=
  if x < lo then lo else if hi < x then hi else x

/-- Modelled from the spec: coercion of an array element by the backend
constructor inside the variadic `sum` (`Decimal.sum(0, ...arr)` coerces
each element); a nested array is not a scalar and construction fails. -/
def toDecimal : RawValue → Except EvalError ℚ
  | .num q => .ok q
  | .dec q => .ok q
  | .arr _ => .error .invalidDecimalValue

/-- Modelled from the spec: the backend variadic sum `Decimal.sum(acc,
...elems)`, folding addition over the coerced elements. -/
def decimalSumList : List RawValue → ℚ → Except EvalError ℚ
  | [], acc => .ok acc
  | e :: rest, acc =>
    match toDecimal e with
    | .error err => .error err
    | .ok q => decimalSumList rest (acc + q)

/-- Modelled from the spec: coercion of an operand passed to a backend
method that accepts `DecimalValue | DecimalInstance` (here: the `min` and
`max` arguments of `clamp`); anything that is not a numeric instance
fails backend construction. -/
def coerceToDecimal : Option Value → Except EvalError ℚ
  | some (.dec q) => .ok q
  | _ => .error .invalidDecimalValue

/-- Invokes a one-operand backend method (`abs`, `ceil`, `floor`,
`round`) on `args[0]`: in JavaScript, if `args[0]` is not a backend
instance the method is absent and a `TypeError` is thrown. -/
def method1 (name : String) (f : ℚ → ℚ) (vs : List Value) : Except EvalError Value :=
  match vs.head? with
  | some (Value.dec q) => .ok (Value.dec (f q))
  | _ => .error (.methodOnNonDecimal name)

/-- Parser state: the token list, current position, mode, and the
`hasTopLevelComparison` flag; mirrors the source's `ASTParser`
constructor. -/
structure ASTParser where
  tokens : List Token
  pos : Nat
  mode : Mode
  hasTopLevelComparison : Bool
deriving Repr

/-- The token at the current position (`this.tokens[this.pos]`); a
position past the end yields `EOF`, which the source never reaches since
the stream is `EOF`-terminated. -/
def ASTParser.current (p : ASTParser) : Token :=
  p.tokens.getD p.pos Token.EOF

/-- Advance to the next token (`this.pos++`). -/
def ASTParser.advance (p : ASTParser) : ASTParser :=
  { p with pos := p.pos + 1 }

/-- The valid function names, checked at parse time; mirrors the source's
`validFunctions` list. -/
def validFunctions : List String :=
  ["abs", "ceil", "floor", "round", "clamp", "sum"]

mutual

/-- Parse a primary expression and return an AST node; mirrors the
source's `ASTParser.parsePrimary`: a value reference, a numeric literal,
a function call (arguments parsed non-top-level, then the name and arity
validated), a unary `+`/`-` recursing into `parsePrimary`, or a
parenthesized sub-expression (parsed non-top-level).  The fuel argument
makes the recursion structural. -/
def parsePrimary : Nat → ASTParser → Except EvalError (ASTNode × ASTParser)
  | 0, _ => .error .outOfFuel
  | fuel + 1, p =>
    match p.current with
    | Token.VALUE index => .ok (ASTNode.value index, p.advance)
    | Token.NUMBER value => .ok (ASTNode.number value, p.advance)
    | Token.FUNCTION funcName =>
      match p.advance.current with
      | Token.LPAREN =>
        match parseArgs fuel p.advance.advance with
        | .error e => .error e
        | .ok (args, p2) =>
          if validFunctions.contains funcName = false then
            .error (.unknownFunction funcName)
          else if funcName == "clamp" && args.length != 3 then
            .error .clampArgumentCount
          else if funcName != "clamp" && args.length != 1 then
            .error (.argumentCount funcName)
          else
            .ok (ASTNode.function funcName args, p2.advance)
      | _ => .error (.expectedLParenAfterFunction funcName)
    | Token.OPERATOR Op.add =>
      match parsePrimary fuel p.advance with
      | .error e => .error e
      | .ok (operand, p1) => .ok (ASTNode.unary UnaryOp.plus operand, p1)
    | Token.OPERATOR Op.sub =>
      match parsePrimary fuel p.advance with
      | .error e => .error e
      | .ok (operand, p1) => .ok (ASTNode.unary UnaryOp.minus operand, p1)
    | Token.LPAREN =>
      match parseExpression fuel 0 false p.advance with
      | .error e => .error e
      | .ok (expr, p1) =>
        match p1.current with
        | Token.RPAREN => .ok (expr, p1.advance)
        | _ => .error .expectedCloseParen
    | t => .error (.unexpectedToken t)

/-- Parse the argument list of a function call (the `while` loop of the
source's `parsePrimary` function branch): arguments separated by commas,
terminated by a closing parenthesis, each parsed with
`parseExpression(0, false)`.  Returns with the current token at the
closing parenthesis, which the caller consumes. -/
def parseArgs : Nat → ASTParser → Except EvalError (List ASTNode × ASTParser)
  | 0, _ => .error .outOfFuel
  | fuel + 1, p =>
    if p.current == Token.RPAREN then
      .ok ([], p)
    else
      match parseExpression fuel 0 false p with
      | .error e => .error e
      | .ok (arg, p1) =>
        if p1.current == Token.COMMA then
          match parseArgs fuel p1.advance with
          | .error e => .error e
          | .ok (args, p2) => .ok (arg :: args, p2)
        else if p1.current != Token.RPAREN then
          .error .expectedCommaOrCloseParen
        else
          match parseArgs fuel p1 with
          | .error e => .error e
          | .ok (args, p2) => .ok (arg :: args, p2)

/-- Parse an expression with precedence climbing; mirrors the source's
`ASTParser.parseExpression(minPrec, isTopLevel)`: parse a primary, then
fold in binary operators via `parseLoop`. -/
def parseExpression : Nat → Nat → Bool → ASTParser → Except EvalError (ASTNode × ASTParser)
  | 0, _, _, _ => .error .outOfFuel
  | fuel + 1, minPrec, isTopLevel, p =>
    match parsePrimary fuel p with
    | .error e => .error e
    | .ok (left, p1) => parseLoop fuel minPrec isTopLevel left p1

/-- The `while (true)` operator loop of the source's `parseExpression`:
stop on a non-operator or an operator below `minPrec`; reject a
comparison in `math` mode; in `is` mode reject a non-top-level comparison
and a second top-level comparison, and record the first one; then parse
the right operand with threshold `prec + 1` (left-associative) or `prec`
(right-associative `**`) and continue with the combined `binary` node. -/
def parseLoop : Nat → Nat → Bool → ASTNode → ASTParser → Except EvalError (ASTNode × ASTParser)
  | 0, _, _, _, _ => .error .outOfFuel
  | fuel + 1, minPrec, isTopLevel, left, p =>
    match p.current with
    | Token.OPERATOR op =>
      if PRECEDENCE op < minPrec then
        .ok (left, p)
      else if COMPARISON_OPS op && p.mode == Mode.math then
        .error (.comparisonInMath op)
      else if COMPARISON_OPS op && p.mode == Mode.is && !isTopLevel then
        .error (.comparisonNested op)
      else if COMPARISON_OPS op && p.mode == Mode.is && p.hasTopLevelComparison then
        .error .chainedComparison
      else
        match parseExpression fuel
            (if RIGHT_ASSOC op then PRECEDENCE op else PRECEDENCE op + 1)
            isTopLevel
            (if COMPARISON_OPS op && p.mode == Mode.is then
              ASTParser.advance { p with hasTopLevelComparison := true }
            else
              p.advance) with
        | .error e => .error e
        | .ok (right, p2) =>
          parseLoop fuel minPrec isTopLevel (ASTNode.binary op left right) p2
    | _ => .ok (left, p)

end

mutual

/-- Interprets an AST node against the preprocessed values; mirrors the
source's `interpret(node, values, Decimal)`.  A `value` node reads the
indexed value (JavaScript yields `undefined` past the end); a `number`
node constructs a backend value from the literal text; `unary` and
`binary` assert both operands are backend instances; a `function` node
evaluates the arguments and dispatches on the (parse-time validated)
name. -/
def interpret : ASTNode → List Value → Except EvalError Value
  | .value index, values => .ok (values.getD index Value.undef)
  | .number value, _ =>
    match decimalOfChars value.data with
    | some q => .ok (Value.dec q)
    | none => .error .invalidDecimalValue
  | .unary op operand, values =>
    match interpret operand values with
    | .error e => .error e
    | .ok (Value.dec q) =>
      match op with
      | .minus => .ok (Value.dec (-q))
      | .plus => .ok (Value.dec q)
    | .ok _ => .error .unaryOperandNotDecimal
  | .binary op l r, values =>
    match interpret l values with
    | .error e => .error e
    | .ok lv =>
      match interpret r values with
      | .error e => .error e
      | .ok rv =>
        match lv, rv with
        | Value.dec a, Value.dec b =>
          match op with
          | .add => .ok (Value.dec (a + b))
          | .sub => .ok (Value.dec (a - b))
          | .mul => .ok (Value.dec (a * b))
          | .div => .ok (Value.dec (a / b))
          | .pow => .ok (Value.dec (decimalPow a b))
          | .lt => .ok (Value.bool (decide (a < b)))
          | .le => .ok (Value.bool (decide (a ≤ b)))
          | .eq => .ok (Value.bool (decide (a = b)))
          | .gt => .ok (Value.bool (decide (b < a)))
          | .ge => .ok (Value.bool (decide (b ≤ a)))
          | .ne => .ok (Value.bool (!(decide (a = b))))
        | _, _ => .error .binaryOperandsNotDecimal
  | .function name args, values =>
    match interpretArgs args values with
    | .error e => .error e
    | .ok vs =>
      match name with
      | "abs" => method1 ("abs") (fun q => |q|) vs
      | "ceil" => method1 ("ceil") decimalCeil vs
      | "floor" => method1 ("floor") decimalFloor vs
      | "round" => method1 ("round") decimalRound vs
      | "clamp" =>
        match vs.head? with
        | some (Value.dec x) =>
          match coerceToDecimal (vs.drop 1).head? with
          | .error e => .error e
          | .ok lo =>
            match coerceToDecimal (vs.drop 2).head? with
            | .error e => .error e
            | .ok hi => .ok (Value.dec (decimalClamp x lo hi))
        | _ => .error (.methodOnNonDecimal ("clamp"))
      | "sum" =>
        match vs.head? with
        | some (Value.arr elems) =>
          match decimalSumList elems 0 with
          | .error e => .error e
          | .ok s => .ok (Value.dec s)
        | _ => .error .sumRequiresArray
      | _ => .error (.unknownFunction name)

/-- Evaluates a list of argument nodes in order (the source's
`node.args.map(arg => interpret(arg, values, Decimal))`). -/
def interpretArgs : List ASTNode → List Value → Except EvalError (List Value)
  | [], _ => .ok []
  | a :: rest, values =>
    match interpret a values with
    | .error e => .error e
    | .ok v =>
      match interpretArgs rest values with
      | .error e => .error e
      | .ok vs => .ok (v :: vs)

end

/-- Fuel that always suffices for the parser on the given token stream:
every recursive call either consumes a token first or descends a level,
so consumption is bounded linearly in the stream length. -/
def fuelFor (tokens : List Token) : Nat :=
  4 * tokens.length + 16

/-- Tokenize and parse a fragment list in `math` mode, then require the
whole stream to be consumed; the parse path of the source's `math` tag on
a cache miss (`tokenize`, `parseExpression(0, true)`, `EOF` check). -/
def parseMath (strings : List String) : Except EvalError ASTNode :=
  match tokenize strings with
  | .error e => .error e
  | .ok tokens =>
    match parseExpression (fuelFor tokens) 0 true ⟨tokens, 0, Mode.math, false⟩ with
    | .error e => .error e
    | .ok (ast, p) =>
      match p.current with
      | Token.EOF => .ok ast
      | _ => .error .trailingTokens

/-- Tokenize and parse a fragment list in `is` mode: after the `EOF`
check, the parse must additionally have found a top-level comparison; the
parse path of the source's `is` tag on a cache miss. -/
def parseIs (strings : List String) : Except EvalError ASTNode :=
  match tokenize strings with
  | .error e => .error e
  | .ok tokens =>
    match parseExpression (fuelFor tokens) 0 true ⟨tokens, 0, Mode.is, false⟩ with
    | .error e => .error e
    | .ok (ast, p) =>
      match p.current with
      | Token.EOF =>
        if p.hasTopLevelComparison then .ok ast else .error .missingComparison
      | _ => .error .trailingTokens

/-- A template invocation's fragment sequence.  The source keys its caches
in a `WeakMap` by the identity of the `TemplateStringsArray` object, not
by its textual content; `id` models that object identity. -/
structure Template where
  id : Nat
  strings : List String

/-- One of the two per-mode caches created by `create`: an association
from fragment-sequence identity to the parsed AST. -/
def Cache := List (Nat × ASTNode)

/-- Cache lookup by fragment-sequence identity (`cache.get(template)`). -/
def Cache.get (cache : Cache) (id : Nat) : Option ASTNode :=
  match cache with
  | [] => none
  | (k, ast) :: rest => if k == id then some ast else Cache.get rest id

/-- The `math` tag of the source's `create(DecimalConstructor)`: consult
the arithmetic-mode cache by template identity; on a miss tokenize, parse
and store the AST; then preprocess the values and interpret.  Returns the
result, the updated cache, and whether this call ran the parser (the
parse-count instrumentation the specification mentions). -/
def math (cache : Cache) (template : Template) (values : List RawValue) :
    Except EvalError Value × Cache × Bool :=
  match Cache.get cache template.id with
  | some ast => (interpret ast (preprocessValues values), cache, false)
  | none =>
    match parseMath template.strings with
    | .error e => (.error e, cache, true)
    | .ok ast =>
      (interpret ast (preprocessValues values), (template.id, ast) :: cache, true)

/-- The `is` tag of the source's `create(DecimalConstructor)`: same
structure as `math`, against the predicate-mode cache, with the
top-level-comparison requirement enforced before caching. -/
def is (cache : Cache) (template : Template) (values : List RawValue) :
    Except EvalError Value × Cache × Bool :=
  match Cache.get cache template.id with
  | some ast => (interpret ast (preprocessValues values), cache, false)
  | none =>
    match parseIs template.strings with
    | .error e => (.error e, cache, true)
    | .ok ast =>
      (interpret ast (preprocessValues values), (template.id, ast) :: cache, true)

mutual

/-- Number of comparison-operator `binary` nodes anywhere in an AST. -/
def compCount : ASTNode → Nat
  | .value _ => 0
  | .number _ => 0
  | .unary _ operand => compCount operand
  | .binary op l r => (if COMPARISON_OPS op then 1 else 0) + compCount l + compCount r
  | .function _ args => compCountList args

/-- Sum of `compCount` over a list of nodes. -/
def compCountList : List ASTNode → Nat
  | [] => 0
  | a :: rest => compCount a + compCountList rest

end

mutual

/-- The interpolation-slot indices referenced by the `value` nodes of an
AST. -/
def nodeIdxs : ASTNode → List Nat
  | .value i => [i]
  | .number _ => []
  | .unary _ operand => nodeIdxs operand
  | .binary _ l r => nodeIdxs l ++ nodeIdxs r
  | .function _ args => nodeIdxsList args

/-- `nodeIdxs` over a list of nodes. -/
def nodeIdxsList : List ASTNode → List Nat
  | [] => []
  | a :: rest => nodeIdxs a ++ nodeIdxsList rest

end

/-- The indices carried by the `VALUE` tokens of a token stream. -/
def tokenIdxs (ts : List Token) : List Nat :=
  ts.filterMap fun t =>
    match t with
    | Token.VALUE i => some i
    | _ => none

/-- The `hasTopLevelComparison` flag of a parser state, as a count. -/
def flagN (p : ASTParser) : Nat :=
  if p.hasTopLevelComparison then 1 else 0

/-- What a successful `parsePrimary` / `parseExpression` step guarantees:
mode and token stream are untouched, the number of comparison nodes built
equals the change of the `hasTopLevelComparison` flag, in `math` mode the
flag is untouched, and every `value` node's index stems from a `VALUE`
token of the stream. -/
abbrev ParsedNode (p : ASTParser) (ast : ASTNode) (p' : ASTParser) : Prop :=
  p'.mode = p.mode ∧ p'.tokens = p.tokens ∧
  compCount ast + flagN p = flagN p' ∧
  (p.mode = Mode.math → p'.hasTopLevelComparison = p.hasTopLevelComparison) ∧
  (∀ i, i ∈ nodeIdxs ast → i ∈ tokenIdxs p.tokens)

/-- The `parseArgs` variant of `ParsedNode`. -/
abbrev ParsedArgs (p : ASTParser) (args : List ASTNode) (p' : ASTParser) : Prop :=
  p'.mode = p.mode ∧ p'.tokens = p.tokens ∧
  compCountList args + flagN p = flagN p' ∧
  (p.mode = Mode.math → p'.hasTopLevelComparison = p.hasTopLevelComparison) ∧
  (∀ i, i ∈ nodeIdxsList args → i ∈ tokenIdxs p.tokens)

/-- The `parseLoop` variant of `ParsedNode`: the result extends the
incoming `left` node. -/
abbrev ParsedLoop (left : ASTNode) (p : ASTParser) (ast : ASTNode) (p' : ASTParser) : Prop :=
  p'.mode = p.mode ∧ p'.tokens = p.tokens ∧
  compCount ast + flagN p = compCount left + flagN p' ∧
  (p.mode = Mode.math → p'.hasTopLevelComparison = p.hasTopLevelComparison) ∧
  (∀ i, i ∈ nodeIdxs ast → i ∈ nodeIdxs left ∨ i ∈ tokenIdxs p.tokens)

theorem ASTParser.advance_mode (p : ASTParser) : p.advance.mode = p.mode := rfl

theorem ASTParser.advance_tokens (p : ASTParser) : p.advance.tokens = p.tokens := rfl

theorem ASTParser.advance_flag (p : ASTParser) :
    p.advance.hasTopLevelComparison = p.hasTopLevelComparison := rfl

theorem flagN_advance (p : ASTParser) : flagN p.advance = flagN p := rfl

theorem current_mem {p : ASTParser} {t : Token} (hc : p.current = t)
    (hne : t ≠ Token.EOF) : t ∈ p.tokens := by
  unfold ASTParser.current at hc
  rw [List.getD_eq_getElem?_getD] at hc
  cases hg : p.tokens[p.pos]? with
  | none => rw [hg] at hc; exact absurd hc.symm hne
  | some t' =>
    rw [hg] at hc
    simp only [Option.getD_some] at hc
    subst hc
    exact List.getElem?_mem hg

theorem mem_tokenIdxs {ts : List Token} {i : Nat} (h : Token.VALUE i ∈ ts) :
    i ∈ tokenIdxs ts := by
  unfold tokenIdxs
  rw [List.mem_filterMap]
  exact ⟨Token.VALUE i, h, rfl⟩

/-- Structural invariant of one successful parser step, proven for all
four mutually recursive parsing functions at once by induction on fuel:
the mode and token stream are never modified, the number of comparison
nodes built equals the increase of the `hasTopLevelComparison` flag (so
at most one comparison is ever accepted per parse, and none once the
flag is set), in `math` mode the flag is never touched, and every `value`
node's index stems from a `VALUE` token of the stream. -/
theorem parserInvariant : ∀ fuel : Nat,
    (∀ p ast p', parsePrimary fuel p = .ok (ast, p') → ParsedNode p ast p') ∧
    (∀ p args p', parseArgs fuel p = .ok (args, p') → ParsedArgs p args p') ∧
    (∀ minPrec isTopLevel p ast p',
      parseExpression fuel minPrec isTopLevel p = .ok (ast, p') → ParsedNode p ast p') ∧
    (∀ minPrec isTopLevel left p ast p',
      parseLoop fuel minPrec isTopLevel left p = .ok (ast, p') → ParsedLoop left p ast p') := by
  intro fuel
  induction fuel with
  | zero =>
    refine ⟨?_, ?_, ?_, ?_⟩
    · intro p ast p' h
      simp [parsePrimary] at h
    · intro p args p' h
      simp [parseArgs] at h
    · intro minPrec isTopLevel p ast p' h
      simp [parseExpression] at h
    · intro minPrec isTopLevel left p ast p' h
      simp [parseLoop] at h
  | succ n ih =>
    obtain ⟨ihP, ihA, ihE, ihL⟩ := ih
    refine ⟨?_, ?_, ?_, ?_⟩
    · -- parsePrimary
      intro p ast p' h
      cases hc : p.current
      case VALUE index =>
        simp only [parsePrimary, hc, Except.ok.injEq, Prod.mk.injEq] at h
        obtain ⟨rfl, rfl⟩ := h
        refine ⟨rfl, rfl, by simp [compCount, flagN_advance], fun _ => rfl, ?_⟩
        intro i hi
        simp only [nodeIdxs, List.mem_singleton] at hi
        subst hi
        exact mem_tokenIdxs (current_mem hc (by simp))
      case NUMBER value =>
        simp only [parsePrimary, hc, Except.ok.injEq, Prod.mk.injEq] at h
        obtain ⟨rfl, rfl⟩ := h
        refine ⟨rfl, rfl, by simp [compCount, flagN_advance], fun _ => rfl, ?_⟩
        intro i hi
        simp [nodeIdxs] at hi
      case FUNCTION funcName =>
        simp only [parsePrimary, hc] at h
        cases hc1 : p.advance.current
        case LPAREN =>
          simp only [hc1] at h
          cases hargs : parseArgs n p.advance.advance with
          | error e => simp [hargs] at h
          | ok pr =>
            obtain ⟨args, p2⟩ := pr
            simp only [hargs] at h
            split_ifs at h with hv hcl har
            simp only [Except.ok.injEq, Prod.mk.injEq] at h
            obtain ⟨rfl, rfl⟩ := h
            obtain ⟨a1, a2, a3, a4, a5⟩ := ihA _ _ _ hargs
            refine ⟨a1, a2, ?_, fun hm => a4 hm, ?_⟩
            · have hcc : compCount (ASTNode.function funcName args) = compCountList args := by
                simp [compCount]
              rw [hcc]
              exact a3
            · intro i hi
              have hni : nodeIdxs (ASTNode.function funcName args) = nodeIdxsList args := by
                simp [nodeIdxs]
              rw [hni] at hi
              exact a5 i hi
        all_goals simp [hc1] at h
      case OPERATOR v =>
        cases v
        case add =>
          simp only [parsePrimary, hc] at h
          cases hop : parsePrimary n p.advance with
          | error e => simp [hop] at h
          | ok pr =>
            obtain ⟨operand, p1⟩ := pr
            simp only [hop, Except.ok.injEq, Prod.mk.injEq] at h
            obtain ⟨rfl, rfl⟩ := h
            obtain ⟨a1, a2, a3, a4, a5⟩ := ihP _ _ _ hop
            refine ⟨a1, a2, ?_, fun hm => a4 hm, ?_⟩
            · have hcc : compCount (ASTNode.unary UnaryOp.plus operand) = compCount operand := by
                simp [compCount]
              rw [hcc]
              exact a3
            · intro i hi
              have hni : nodeIdxs (ASTNode.unary UnaryOp.plus operand) = nodeIdxs operand := by
                simp [nodeIdxs]
              rw [hni] at hi
              exact a5 i hi
        case sub =>
          simp only [parsePrimary, hc] at h
          cases hop : parsePrimary n p.advance with
          | error e => simp [hop] at h
          | ok pr =>
            obtain ⟨operand, p1⟩ := pr
            simp only [hop, Except.ok.injEq, Prod.mk.injEq] at h
            obtain ⟨rfl, rfl⟩ := h
            obtain ⟨a1, a2, a3, a4, a5⟩ := ihP _ _ _ hop
            refine ⟨a1, a2, ?_, fun hm => a4 hm, ?_⟩
            · have hcc : compCount (ASTNode.unary UnaryOp.minus operand) = compCount operand := by
                simp [compCount]
              rw [hcc]
              exact a3
            · intro i hi
              have hni : nodeIdxs (ASTNode.unary UnaryOp.minus operand) = nodeIdxs operand := by
                simp [nodeIdxs]
              rw [hni] at hi
              exact a5 i hi
        all_goals simp [parsePrimary, hc] at h
      case LPAREN =>
        simp only [parsePrimary, hc] at h
        cases hex : parseExpression n 0 false p.advance with
        | error e => simp [hex] at h
        | ok pr =>
          obtain ⟨expr, p1⟩ := pr
          simp only [hex] at h
          cases hc1 : p1.current
          case RPAREN =>
            simp only [hc1, Except.ok.injEq, Prod.mk.injEq] at h
            obtain ⟨rfl, rfl⟩ := h
            obtain ⟨a1, a2, a3, a4, a5⟩ := ihE _ _ _ _ _ hex
            exact ⟨a1, a2, a3, fun hm => a4 hm, fun i hi => a5 i hi⟩
          all_goals simp [hc1] at h
      all_goals simp [parsePrimary, hc] at h
    · -- parseArgs
      intro p args p' h
      simp only [parseArgs] at h
      split_ifs at h with hrp
      · -- closing parenthesis: the loop exits with the collected arguments
        simp only [Except.ok.injEq, Prod.mk.injEq] at h
        obtain ⟨rfl, rfl⟩ := h
        refine ⟨rfl, rfl, by simp [compCountList], fun _ => rfl, ?_⟩
        intro i hi
        simp [nodeIdxsList] at hi
      · cases hex : parseExpression n 0 false p with
        | error e => simp [hex] at h
        | ok pr =>
          obtain ⟨arg, p1⟩ := pr
          simp only [hex] at h
          split_ifs at h with hcm hnr
          · -- a comma: recurse past it
            cases hrec : parseArgs n p1.advance with
            | error e => simp [hrec] at h
            | ok pr2 =>
              obtain ⟨args2, p2⟩ := pr2
              simp only [hrec, Except.ok.injEq, Prod.mk.injEq] at h
              obtain ⟨rfl, rfl⟩ := h
              obtain ⟨e1, e2, e3, e4, e5⟩ := ihE _ _ _ _ _ hex
              obtain ⟨b1, b2, b3, b4, b5⟩ := ihA _ _ _ hrec
              have b3' : compCountList args2 + flagN p1 = flagN p2 := b3
              refine ⟨b1.trans e1, b2.trans e2, ?_, ?_, ?_⟩
              · have hcc : compCountList (arg :: args2) =
                    compCount arg + compCountList args2 := by
                  simp [compCountList]
                rw [hcc]
                omega
              · intro hm
                exact (b4 (e1.trans hm)).trans (e4 hm)
              · intro i hi
                have hni : nodeIdxsList (arg :: args2) =
                    nodeIdxs arg ++ nodeIdxsList args2 := by
                  simp [nodeIdxsList]
                rw [hni] at hi
                rcases List.mem_append.mp hi with hl | hr
                · exact e5 i hl
                · have hb : i ∈ tokenIdxs p1.tokens := b5 i hr
                  rw [e2] at hb
                  exact hb
          · -- at the closing parenthesis: recurse in place and exit
            cases hrec : parseArgs n p1 with
            | error e => simp [hrec] at h
            | ok pr2 =>
              obtain ⟨args2, p2⟩ := pr2
              simp only [hrec, Except.ok.injEq, Prod.mk.injEq] at h
              obtain ⟨rfl, rfl⟩ := h
              obtain ⟨e1, e2, e3, e4, e5⟩ := ihE _ _ _ _ _ hex
              obtain ⟨b1, b2, b3, b4, b5⟩ := ihA _ _ _ hrec
              refine ⟨b1.trans e1, b2.trans e2, ?_, ?_, ?_⟩
              · have hcc : compCountList (arg :: args2) =
                    compCount arg + compCountList args2 := by
                  simp [compCountList]
                rw [hcc]
                omega
              · intro hm
                exact (b4 (e1.trans hm)).trans (e4 hm)
              · intro i hi
                have hni : nodeIdxsList (arg :: args2) =
                    nodeIdxs arg ++ nodeIdxsList args2 := by
                  simp [nodeIdxsList]
                rw [hni] at hi
                rcases List.mem_append.mp hi with hl | hr
                · exact e5 i hl
                · have hb : i ∈ tokenIdxs p1.tokens := b5 i hr
                  rw [e2] at hb
                  exact hb
    · -- parseExpression
      intro minPrec isTopLevel p ast p' h
      simp only [parseExpression] at h
      cases hpr : parsePrimary n p with
      | error e => simp [hpr] at h
      | ok pr =>
        obtain ⟨left, p1⟩ := pr
        simp only [hpr] at h
        obtain ⟨a1, a2, a3, a4, a5⟩ := ihP _ _ _ hpr
        obtain ⟨b1, b2, b3, b4, b5⟩ := ihL _ _ _ _ _ _ h
        refine ⟨b1.trans a1, b2.trans a2, by omega, ?_, ?_⟩
        · intro hm
          exact (b4 (a1.trans hm)).trans (a4 hm)
        · intro i hi
          rcases b5 i hi with hl | ht
          · exact a5 i hl
          · rw [a2] at ht
            exact ht
    · -- parseLoop
      intro minPrec isTopLevel left p ast p' h
      cases hc : p.current
      case OPERATOR op =>
        simp only [parseLoop, hc] at h
        generalize (if RIGHT_ASSOC op then PRECEDENCE op else PRECEDENCE op + 1) = nmp at h
        split_ifs at h with h1 h2 h3 h4 h5
        · -- precedence below threshold: the loop stops
          simp only [Except.ok.injEq, Prod.mk.injEq] at h
          obtain ⟨rfl, rfl⟩ := h
          exact ⟨rfl, rfl, rfl, fun _ => rfl, fun i hi => Or.inl hi⟩
        · -- accepted comparison operator: the flag is set
          have hmis : COMPARISON_OPS op = true ∧ p.mode = Mode.is := by
            simpa using h5
          obtain ⟨hco, hmi'⟩ := hmis
          have hflag : p.hasTopLevelComparison = false := by
            by_contra hcon
            rw [Bool.not_eq_false] at hcon
            exact h4 (by simp [hco, hmi', hcon])
          cases hre : parseExpression n nmp isTopLevel
              (ASTParser.advance { p with hasTopLevelComparison := true }) with
          | error e => simp [hre] at h
          | ok pr =>
            obtain ⟨right, p2⟩ := pr
            simp only [hre] at h
            obtain ⟨e1, e2, e3, e4, e5⟩ := ihE _ _ _ _ _ hre
            obtain ⟨b1, b2, b3, b4, b5⟩ := ihL _ _ _ _ _ _ h
            have e3' : compCount right + 1 = flagN p2 := e3
            have hbc : compCount (ASTNode.binary op left right) =
                1 + compCount left + compCount right := by
              simp [compCount, hco]
            rw [hbc] at b3
            refine ⟨b1.trans e1, b2.trans e2, ?_, ?_, ?_⟩
            · have hfp : flagN p = 0 := by
                simp [flagN, hflag]
              rw [hfp]
              omega
            · intro hm
              rw [hm] at hmi'
              exact absurd hmi' (by simp)
            · intro i hi
              rcases b5 i hi with hl | ht
              · have hbn : nodeIdxs (ASTNode.binary op left right) =
                    nodeIdxs left ++ nodeIdxs right := by
                  simp [nodeIdxs]
                rw [hbn] at hl
                rcases List.mem_append.mp hl with hll | hlr
                · exact Or.inl hll
                · exact Or.inr (e5 i hlr)
              · rw [e2] at ht
                exact Or.inr ht
        · -- accepted non-comparison operator: the flag is untouched
          have hco : COMPARISON_OPS op = false := by
            cases hcob : COMPARISON_OPS op
            · rfl
            · cases hm : p.mode
              · exact absurd (by simp [hcob, hm]) h2
              · exact absurd (by simp [hcob, hm]) h5
          cases hre : parseExpression n nmp isTopLevel p.advance with
          | error e => simp [hre] at h
          | ok pr =>
            obtain ⟨right, p2⟩ := pr
            simp only [hre] at h
            obtain ⟨e1, e2, e3, e4, e5⟩ := ihE _ _ _ _ _ hre
            obtain ⟨b1, b2, b3, b4, b5⟩ := ihL _ _ _ _ _ _ h
            have e3' : compCount right + flagN p = flagN p2 := e3
            have hbc : compCount (ASTNode.binary op left right) =
                compCount left + compCount right := by
              simp [compCount, hco]
            rw [hbc] at b3
            refine ⟨b1.trans e1, b2.trans e2, by omega, ?_, ?_⟩
            · intro hm
              exact (b4 (e1.trans hm)).trans (e4 hm)
            · intro i hi
              rcases b5 i hi with hl | ht
              · have hbn : nodeIdxs (ASTNode.binary op left right) =
                    nodeIdxs left ++ nodeIdxs right := by
                  simp [nodeIdxs]
                rw [hbn] at hl
                rcases List.mem_append.mp hl with hll | hlr
                · exact Or.inl hll
                · exact Or.inr (e5 i hlr)
              · rw [e2] at ht
                exact Or.inr ht
      all_goals
        simp only [parseLoop, hc, Except.ok.injEq, Prod.mk.injEq] at h
        obtain ⟨rfl, rfl⟩ := h
        exact ⟨rfl, rfl, rfl, fun _ => rfl, fun i hi => Or.inl hi⟩

/-- Inversion of `Except.map` on a successful result. -/
theorem exceptMapOk {α β ε : Type} {f : α → β} {x : Except ε α} {y : β}
    (h : Except.map f x = .ok y) : ∃ z, x = .ok z ∧ y = f z := by
  cases x with
  | error e => simp [Except.map] at h
  | ok z =>
    refine ⟨z, rfl, ?_⟩
    simpa [Except.map] using h.symm

/-- A successful `math`-mode parse contains no comparison node. -/
theorem parseMath_compCount {strings : List String} {ast : ASTNode}
    (h : parseMath strings = .ok ast) : compCount ast = 0 := by
  simp only [parseMath] at h
  cases htok : tokenize strings with
  | error e => simp [htok] at h
  | ok tokens =>
    simp only [htok] at h
    cases hpe : parseExpression (fuelFor tokens) 0 true ⟨tokens, 0, Mode.math, false⟩ with
    | error e => simp [hpe] at h
    | ok pr =>
      obtain ⟨ast', p⟩ := pr
      simp only [hpe] at h
      obtain ⟨a1, a2, a3, a4, a5⟩ :=
        (parserInvariant (fuelFor tokens)).2.2.1 0 true ⟨tokens, 0, Mode.math, false⟩ ast' p hpe
      cases hcur : p.current
      case EOF =>
        simp only [hcur, Except.ok.injEq] at h
        subst h
        have hfl : p.hasTopLevelComparison = false := a4 rfl
        have h3 : compCount ast' + flagN ⟨tokens, 0, Mode.math, false⟩ = flagN p := a3
        rw [show flagN ⟨tokens, 0, Mode.math, false⟩ = 0 from rfl,
          show flagN p = 0 from by simp [flagN, hfl]] at h3
        omega
      all_goals simp [hcur] at h

/-- A successful `is`-mode parse contains exactly one comparison node. -/
theorem parseIs_compCount {strings : List String} {ast : ASTNode}
    (h : parseIs strings = .ok ast) : compCount ast = 1 := by
  simp only [parseIs] at h
  cases htok : tokenize strings with
  | error e => simp [htok] at h
  | ok tokens =>
    simp only [htok] at h
    cases hpe : parseExpression (fuelFor tokens) 0 true ⟨tokens, 0, Mode.is, false⟩ with
    | error e => simp [hpe] at h
    | ok pr =>
      obtain ⟨ast', p⟩ := pr
      simp only [hpe] at h
      obtain ⟨a1, a2, a3, a4, a5⟩ :=
        (parserInvariant (fuelFor tokens)).2.2.1 0 true ⟨tokens, 0, Mode.is, false⟩ ast' p hpe
      cases hcur : p.current
      case EOF =>
        simp only [hcur] at h
        split_ifs at h with hfl
        simp only [Except.ok.injEq] at h
        subst h
        have h3 : compCount ast' + flagN ⟨tokens, 0, Mode.is, false⟩ = flagN p := a3
        rw [show flagN ⟨tokens, 0, Mode.is, false⟩ = 0 from rfl,
          show flagN p = 1 from by simp [flagN, hfl]] at h3
        omega
      all_goals simp [hcur] at h

/-- A token emitted by `lexStep` is never a `VALUE` token (those are
inserted only at interpolation slots by the outer loop). -/
theorem lexStep_emit_no_value {c : Char} {rest : List Char} {t : Token}
    {rest2 : List Char} (h : lexStep c rest = .emit t rest2) :
    ∀ ts, tokenIdxs (t :: ts) = tokenIdxs ts := by
  intro ts
  unfold lexStep at h
  split at h <;>
    first
      | exact LexStep.noConfusion h
      | (injection h with h1 h2
         subst h1
         simp [tokenIdxs])
      | (split_ifs at h <;>
          first
            | exact LexStep.noConfusion h
            | (injection h with h1 h2
               subst h1
               simp [tokenIdxs]))

/-- A token stream produced by `tokenizeChars` contains no `VALUE` token. -/
theorem tokenizeChars_no_value : ∀ fuel l ts,
    tokenizeChars fuel l = .ok ts → tokenIdxs ts = [] := by
  intro fuel
  induction fuel with
  | zero =>
    intro l ts h
    simp [tokenizeChars] at h
  | succ fuel ih =>
    intro l ts h
    cases l with
    | nil =>
      simp only [tokenizeChars, Except.ok.injEq] at h
      subst h
      rfl
    | cons c rest =>
      simp only [tokenizeChars] at h
      cases hstep : lexStep c rest with
      | skip rest2 =>
        simp only [hstep] at h
        exact ih _ _ h
      | emit t rest2 =>
        simp only [hstep] at h
        obtain ⟨ts', hrec, rfl⟩ := exceptMapOk h
        rw [lexStep_emit_no_value hstep ts']
        exact ih _ _ hrec
      | err e =>
        simp only [hstep] at h
        exact Except.noConfusion h

/-- `tokenIdxs` distributes over list append. -/
theorem tokenIdxs_append (a b : List Token) :
    tokenIdxs (a ++ b) = tokenIdxs a ++ tokenIdxs b := by
  simp [tokenIdxs]

/-- The `VALUE` tokens emitted by `tokenizeList i strings` carry indices
in the interval `[i, i + strings.length - 1)`. -/
theorem tokenizeList_value_bound : ∀ strings i ts,
    tokenizeList i strings = .ok ts →
    ∀ j ∈ tokenIdxs ts, i ≤ j ∧ j + 1 < i + strings.length := by
  intro strings
  induction strings with
  | nil =>
    intro i ts h j hj
    simp only [tokenizeList, Except.ok.injEq] at h
    subst h
    simp [tokenIdxs] at hj
  | cons s rest ih =>
    intro i ts h j hj
    cases rest with
    | nil =>
      simp only [tokenizeList] at h
      rw [tokenizeChars_no_value _ _ _ h] at hj
      simp at hj
    | cons s' rest' =>
      simp only [tokenizeList] at h
      split at h
      · exact Except.noConfusion h
      · rename_i ts1 hch
        split at h
        · exact Except.noConfusion h
        · rename_i more hrest
          simp only [Except.ok.injEq] at h
          subst h
          rw [tokenIdxs_append, tokenizeChars_no_value _ _ _ hch] at hj
          have hcons : tokenIdxs (Token.VALUE i :: more) = i :: tokenIdxs more := by
            simp [tokenIdxs]
          rw [hcons] at hj
          simp only [List.nil_append, List.mem_cons] at hj
          rcases hj with rfl | hj
          · simp only [List.length_cons]
            omega
          · have := ih (i + 1) more hrest j hj
            simp only [List.length_cons] at this ⊢
            omega

/-- Every `VALUE` token of a tokenized template carries the index of an
interpolation slot: with `len(values) = len(fragments) - 1`, the index is
always in range. -/
theorem tokenize_value_bound {strings : List String} {ts : List Token}
    (h : tokenize strings = .ok ts) : ∀ j ∈ tokenIdxs ts, j + 1 < strings.length := by
  simp only [tokenize] at h
  obtain ⟨ts', hl, rfl⟩ := exceptMapOk h
  intro j hj
  rw [tokenIdxs_append] at hj
  have hEOF : tokenIdxs [Token.EOF] = [] := rfl
  rw [hEOF, List.append_nil] at hj
  have := tokenizeList_value_bound strings 0 ts' hl j hj
  omega

/-- `numRun` consumes exactly a run of digits and decimal points, up to
the first character that is neither. -/
theorem numRun_boundary : ∀ cs rest : List Char,
    (∀ x ∈ cs, (x.isDigit || x == '.') = true) →
    (∀ x, rest.head? = some x → (x.isDigit || x == '.') = false) →
    numRun (cs ++ rest) = (cs, rest) := by
  intro cs
  induction cs with
  | nil =>
    intro rest hall hhd
    cases rest with
    | nil => rfl
    | cons r rs =>
      have hr := hhd r rfl
      simp [numRun, hr]
  | cons c cs ih =>
    intro rest hall hhd
    have hc : (c.isDigit || c == '.') = true := hall c (by simp)
    have hih := ih rest (fun x hx => hall x (by simp [hx])) hhd
    simp [numRun, hc, hih]

/-- The digit branch of `lexStep`: a digit starts a `NUMBER` token made of
the maximal following run of digits and decimal points. -/
theorem lexStep_digit (c : Char) (rest : List Char) (hd : c.isDigit = true) :
    lexStep c rest =
      .emit (Token.NUMBER (String.mk (c :: (numRun rest).1))) (numRun rest).2 := by
  unfold lexStep
  split
  all_goals first
    | exact absurd hd (by decide)
    | (rw [if_pos hd])

/-- Modelled from the spec: the backend variadic sum over numeric
instances is the ordinary fold of addition. -/
theorem decimalSumList_dec (qs : List ℚ) : ∀ acc : ℚ,
    decimalSumList (qs.map RawValue.dec) acc = .ok (qs.foldl (fun a b => a + b) acc) := by
  induction qs with
  | nil => intro acc; rfl
  | cons q qs ih =>
    intro acc
    simp only [List.map_cons, decimalSumList, toDecimal, List.foldl_cons]
    exact ih (acc + q)

/-- Claim C1: for every valid arithmetic-mode expression, the evaluated
result equals the reference value obtained by applying operator
precedence with left-to-right grouping for `+ - * /` and right-to-left
grouping for `**`, as if the expression were explicitly parenthesized.
The first conjunct proves the grouping law for every pair of arithmetic
operators over a three-operand expression: the second operator is folded
into the right operand exactly when its precedence reaches the climbing
threshold of the first (`prec+1` for left-associative operators, `prec`
for the right-associative power), otherwise grouping is left-to-right.
The remaining conjuncts evaluate the particular expressions: `2+3*4 = 14`,
`10/2*3 = 15`, and `2**3**2 = 512`. -/
theorem C1_arithmetic_precedence :
    (∀ (fuel : Nat) (o1 o2 : Op) (a b c : String),
      COMPARISON_OPS o1 = false → COMPARISON_OPS o2 = false →
      parseExpression (fuel + 1 + 1 + 1 + 1 + 1 + 1) 0 true
        ⟨[Token.NUMBER a, Token.OPERATOR o1, Token.NUMBER b, Token.OPERATOR o2,
          Token.NUMBER c, Token.EOF], 0, Mode.math, false⟩ =
      .ok
        (if PRECEDENCE o2 < (if RIGHT_ASSOC o1 then PRECEDENCE o1 else PRECEDENCE o1 + 1) then
          ASTNode.binary o2 (ASTNode.binary o1 (ASTNode.number a) (ASTNode.number b))
            (ASTNode.number c)
        else
          ASTNode.binary o1 (ASTNode.number a)
            (ASTNode.binary o2 (ASTNode.number b) (ASTNode.number c)),
        ⟨[Token.NUMBER a, Token.OPERATOR o1, Token.NUMBER b, Token.OPERATOR o2,
          Token.NUMBER c, Token.EOF], 5, Mode.math, false⟩)) ∧
    (math [] ⟨0, ["2+3*4"]⟩ []).1 = .ok (Value.dec 14) ∧
    (math [] ⟨0, ["10/2*3"]⟩ []).1 = .ok (Value.dec 15) ∧
    (math [] ⟨0, ["2**3**2"]⟩ []).1 = .ok (Value.dec 512) := by
  refine ⟨?_, ?_, ?_, ?_⟩
  · intro fuel o1 o2 a b c h1 h2
    cases o1 <;> cases o2 <;>
      first
        | exact absurd h1 (by decide)
        | exact absurd h2 (by decide)
        | simp [parseExpression, parsePrimary, parseLoop, PRECEDENCE, RIGHT_ASSOC,
            COMPARISON_OPS, ASTParser.current, ASTParser.advance]
  · have hp : parseMath [("2+3*4")] =
        .ok (ASTNode.binary Op.add (ASTNode.number ("2"))
          (ASTNode.binary Op.mul (ASTNode.number ("3")) (ASTNode.number ("4")))) := rfl
    simp only [math, Cache.get]
    rw [hp]
    simp only [interpret, preprocessValues, List.map_nil,
      show decimalOfChars ("2").data = some 2 from rfl,
      show decimalOfChars ("3").data = some 3 from rfl,
      show decimalOfChars ("4").data = some 4 from rfl]
    norm_num
  · have hp : parseMath [("10/2*3")] =
        .ok (ASTNode.binary Op.mul
          (ASTNode.binary Op.div (ASTNode.number ("10")) (ASTNode.number ("2")))
          (ASTNode.number ("3"))) := rfl
    simp only [math, Cache.get]
    rw [hp]
    simp only [interpret, preprocessValues, List.map_nil,
      show decimalOfChars ("10").data = some 10 from rfl,
      show decimalOfChars ("2").data = some 2 from rfl,
      show decimalOfChars ("3").data = some 3 from rfl]
    norm_num
  · have hp : parseMath [("2**3**2")] =
        .ok (ASTNode.binary Op.pow (ASTNode.number ("2"))
          (ASTNode.binary Op.pow (ASTNode.number ("3")) (ASTNode.number ("2")))) := rfl
    have hinner : decimalPow 3 2 = 9 := by
      simp [decimalPow]
      norm_num
    have houter : decimalPow 2 9 = 512 := by
      simp [decimalPow]
      norm_num
    simp only [math, Cache.get]
    rw [hp]
    simp only [interpret, preprocessValues, List.map_nil,
      show decimalOfChars ("2").data = some 2 from rfl,
      show decimalOfChars ("3").data = some 3 from rfl]
    rw [hinner, houter]

/-- Witness for C1: the grouping law instantiated at `2 + 3 * 4` — the
multiplicative operator exceeds the additive threshold, so the parse
groups right (`2 + (3 * 4)`). -/
theorem C1_arithmetic_precedence_witness :
    COMPARISON_OPS Op.add = false ∧ COMPARISON_OPS Op.mul = false ∧
    parseExpression (0 + 1 + 1 + 1 + 1 + 1 + 1) 0 true
      ⟨[Token.NUMBER ("2"), Token.OPERATOR Op.add, Token.NUMBER ("3"), Token.OPERATOR Op.mul,
        Token.NUMBER ("4"), Token.EOF], 0, Mode.math, false⟩ =
    .ok
      (if PRECEDENCE Op.mul <
          (if RIGHT_ASSOC Op.add then PRECEDENCE Op.add else PRECEDENCE Op.add + 1) then
        ASTNode.binary Op.mul
          (ASTNode.binary Op.add (ASTNode.number ("2")) (ASTNode.number ("3")))
          (ASTNode.number ("4"))
      else
        ASTNode.binary Op.add (ASTNode.number ("2"))
          (ASTNode.binary Op.mul (ASTNode.number ("3")) (ASTNode.number ("4"))),
      ⟨[Token.NUMBER ("2"), Token.OPERATOR Op.add, Token.NUMBER ("3"), Token.OPERATOR Op.mul,
        Token.NUMBER ("4"), Token.EOF], 5, Mode.math, false⟩) :=
  ⟨by decide, by decide,
    C1_arithmetic_precedence.1 0 Op.add Op.mul ("2") ("3") ("4") (by decide) (by decide)⟩

/-- Claim C5: unary minus binds tighter than the power operator — the
expression `-2**2` parses as `(-2)**2` (the unary node wraps only the
primary `2`, and the power applies to it), and evaluates to `4`, not to
`-(2**2) = -8`. -/
theorem C5_unary_minus_binds_tighter :
    parseMath ["-2**2"] =
      .ok (ASTNode.binary Op.pow
        (ASTNode.unary UnaryOp.minus (ASTNode.number ("2"))) (ASTNode.number ("2"))) ∧
    (math [] ⟨0, ["-2**2"]⟩ []).1 = .ok (Value.dec 4) ∧
    (math [] ⟨0, ["-2**2"]⟩ []).1 ≠ .ok (Value.dec (-8)) := by
  refine ⟨rfl, ?_, ?_⟩
  · have hp : parseMath [("-2**2")] =
        .ok (ASTNode.binary Op.pow
          (ASTNode.unary UnaryOp.minus (ASTNode.number ("2"))) (ASTNode.number ("2"))) := rfl
    have hpow : decimalPow (-2) 2 = 4 := by
      simp [decimalPow]
      norm_num
    simp only [math, Cache.get]
    rw [hp]
    simp only [interpret, preprocessValues, List.map_nil,
      show decimalOfChars ("2").data = some 2 from rfl]
    rw [hpow]
  · have hp : parseMath [("-2**2")] =
        .ok (ASTNode.binary Op.pow
          (ASTNode.unary UnaryOp.minus (ASTNode.number ("2"))) (ASTNode.number ("2"))) := rfl
    have hpow : decimalPow (-2) 2 = 4 := by
      simp [decimalPow]
      norm_num
    simp only [math, Cache.get]
    rw [hp]
    simp only [interpret, preprocessValues, List.map_nil,
      show decimalOfChars ("2").data = some 2 from rfl]
    rw [hpow]
    intro hcon
    simp only [Except.ok.injEq, Value.dec.injEq] at hcon
    norm_num at hcon

/-- Claim C3: the claim states arithmetic-mode evaluation returns a
numeric backend instance or fails with a typed error, and never returns a
raw interpolated value that is not a numeric instance.  The code violates
this: evaluating the bare interpolation `math`-template with the single
value `[1, 2, 3]` (an array) succeeds and returns the raw array
unchanged — not a numeric instance and not an error — contradicting the
code's own documented return type.  This theorem evaluates the code at
the failing input. -/
theorem C3_math_returns_raw_array :
    (math [] ⟨0, ["", ""]⟩
        [RawValue.arr [RawValue.num 1, RawValue.num 2, RawValue.num 3]]).1 =
      .ok (Value.arr [RawValue.num 1, RawValue.num 2, RawValue.num 3]) ∧
    (∀ q : ℚ, Value.arr [RawValue.num 1, RawValue.num 2, RawValue.num 3] ≠ Value.dec q) := by
  refine ⟨rfl, ?_⟩
  intro q hcon
  exact Value.noConfusion hcon

/-- Witness for C3: the returned raw array differs from every numeric
instance, instantiated at zero. -/
theorem C3_math_returns_raw_array_witness :
    Value.arr [RawValue.num 1, RawValue.num 2, RawValue.num 3] ≠ Value.dec 0 :=
  C3_math_returns_raw_array.2 0

/-- Claim C2: predicate-mode evaluation succeeds only when the expression
contains exactly one comparison at the syntactic top level, and the three
failure shapes — no comparison, a chained second top-level comparison,
and a comparison nested in parentheses — are three distinct errors, all
classified as mode errors.  The first conjunct is general: every
successful `is`-mode parse yields an AST with exactly one comparison
node.  The remaining conjuncts exhibit the three failures (from
`is`-templates `${a} + ${b}`, `${a} < ${b} < ${c}`, and
`(${a} < ${b}) == ${c}`), their distinctness and classification, and one
succeeding evaluation. -/
theorem C2_is_exactly_one_top_level_comparison :
    (∀ (strings : List String) (ast : ASTNode),
      parseIs strings = .ok ast → compCount ast = 1) ∧
    parseIs ["", " + ", ""] = .error .missingComparison ∧
    parseIs ["", " < ", " < ", ""] = .error .chainedComparison ∧
    parseIs ["(", " < ", ") == ", ""] = .error (.comparisonNested Op.lt) ∧
    (EvalError.missingComparison ≠ EvalError.chainedComparison ∧
      EvalError.missingComparison ≠ EvalError.comparisonNested Op.lt ∧
      EvalError.chainedComparison ≠ EvalError.comparisonNested Op.lt) ∧
    (EvalError.missingComparison.isModeError = true ∧
      EvalError.chainedComparison.isModeError = true ∧
      (EvalError.comparisonNested Op.lt).isModeError = true) ∧
    (is [] ⟨0, ["", " < ", ""]⟩ [RawValue.num 1, RawValue.num 2]).1 =
      .ok (Value.bool true) := by
  refine ⟨?_, rfl, rfl, rfl, by decide, by decide, rfl⟩
  intro strings ast h
  exact parseIs_compCount h

/-- Witness for C2: the `is`-template `${a} < ${b}` parses to the single
comparison node `value 0 < value 1`, whose comparison count is one. -/
theorem C2_is_exactly_one_top_level_comparison_witness :
    compCount (ASTNode.binary Op.lt (ASTNode.value 0) (ASTNode.value 1)) = 1 :=
  C2_is_exactly_one_top_level_comparison.1 ["", " < ", ""]
    (ASTNode.binary Op.lt (ASTNode.value 0) (ASTNode.value 1)) rfl

/-- Claim C7: in arithmetic mode a comparison operator is rejected
wherever it occurs.  The first conjunct is general: a successful
`math`-mode parse contains no comparison node at all, so any expression
containing one fails.  The second states that the raised error (naming
the offending operator in its payload) is classified as a mode error, for
every operator.  The remaining conjuncts exhibit the failure at the top
level (`1 < 2`), inside parentheses (`(1 <= 2) + 3`), and inside function
arguments (`abs(1 == 2)`), each naming the offending operator. -/
theorem C7_math_rejects_comparisons :
    (∀ (strings : List String) (ast : ASTNode),
      parseMath strings = .ok ast → compCount ast = 0) ∧
    (∀ op : Op, (EvalError.comparisonInMath op).isModeError = true) ∧
    parseMath ["1 < 2"] = .error (.comparisonInMath Op.lt) ∧
    parseMath ["(1 <= 2) + 3"] = .error (.comparisonInMath Op.le) ∧
    parseMath ["abs(1 == 2)"] = .error (.comparisonInMath Op.eq) := by
  refine ⟨?_, fun op => rfl, rfl, rfl, rfl⟩
  intro strings ast h
  exact parseMath_compCount h

/-- Witness for C7: the arithmetic template `1+2` parses to an addition
of two literals, which contains no comparison node. -/
theorem C7_math_rejects_comparisons_witness :
    compCount (ASTNode.binary Op.add (ASTNode.number ("1")) (ASTNode.number ("2"))) = 0 :=
  C7_math_rejects_comparisons.1 ["1+2"]
    (ASTNode.binary Op.add (ASTNode.number ("1")) (ASTNode.number ("2"))) rfl

/-- Claim C9: a maximal run of digits and decimal points beginning with a
digit is emitted as a single `Number` token even when it contains more
than one decimal point.  The first conjunct is the general law: when the
character after the run is not a digit or dot (or the input ends), the
tokenizer emits one `NUMBER` token holding exactly the run's text and
continues after it.  The remaining conjuncts show `1.2.3` becoming a
single `Number` token with that exact text and no lexical error, and the
failure deferred to numeric construction during evaluation. -/
theorem C9_number_token_maximal_run :
    (∀ (fuel : Nat) (c : Char) (cs rest : List Char),
      c.isDigit = true →
      (∀ x ∈ cs, (x.isDigit || x == '.') = true) →
      (∀ x, rest.head? = some x → (x.isDigit || x == '.') = false) →
      tokenizeChars (fuel + 1) (c :: (cs ++ rest)) =
        Except.map (fun ts => Token.NUMBER (String.mk (c :: cs)) :: ts)
          (tokenizeChars fuel rest)) ∧
    tokenize ["1.2.3"] = .ok [Token.NUMBER ("1.2.3"), Token.EOF] ∧
    (math [] ⟨0, ["1.2.3"]⟩ []).1 = .error .invalidDecimalValue := by
  refine ⟨?_, rfl, rfl⟩
  intro fuel c cs rest hd hall hhd
  have hstep := lexStep_digit c (cs ++ rest) hd
  rw [numRun_boundary cs rest hall hhd] at hstep
  simp only [tokenizeChars, hstep]

/-- Witness for C9: the run lemma instantiated at the fragment `1.2.3`
(the run is the whole fragment, followed by the end of input). -/
theorem C9_number_token_maximal_run_witness :
    tokenizeChars (1 + 1) ('1' :: (['.', '2', '.', '3'] ++ [])) =
      Except.map (fun ts => Token.NUMBER (String.mk ('1' :: ['.', '2', '.', '3'])) :: ts)
        (tokenizeChars 1 []) :=
  C9_number_token_maximal_run.1 1 '1' ['.', '2', '.', '3'] []
    (by decide) (by decide) (by simp)

/-- Claim C4: when a runtime argument supplied to `abs`, `ceil`, `floor`,
`round`, or `clamp` is not a numeric backend instance, evaluation fails
with an error classified as a type error, just as unary and binary
operators fail on non-numeric operands.  The first conjunct is general
over the five functions and any first argument that evaluates to a
non-numeric value; the second covers `clamp`'s second and third
arguments; the third shows the full pipeline on `abs` applied to an
interpolated array, and the last restate the unary/binary operand
failures in general. -/
theorem C4_functions_reject_non_numeric_arguments :
    (∀ (name : String) (args : List ASTNode) (values : List Value) (v : Value)
        (rest : List Value),
      name ∈ (["abs", "ceil", "floor", "round", "clamp"] : List String) →
      interpretArgs args values = .ok (v :: rest) →
      (∀ q : ℚ, v ≠ Value.dec q) →
      ∃ e, interpret (ASTNode.function name args) values = .error e ∧
        e.isTypeError = true) ∧
    (∀ (args : List ASTNode) (values : List Value) (x : ℚ) (v2 v3 : Value),
      interpretArgs args values = .ok [Value.dec x, v2, v3] →
      ((∀ q : ℚ, v2 ≠ Value.dec q) ∨ (∀ q : ℚ, v3 ≠ Value.dec q)) →
      ∃ e, interpret (ASTNode.function ("clamp") args) values = .error e ∧
        e.isTypeError = true) ∧
    (math [] ⟨0, ["abs(", ")"]⟩ [RawValue.arr []]).1 =
      .error (.methodOnNonDecimal ("abs")) ∧
    (∀ (op : UnaryOp) (a : ASTNode) (values : List Value) (v : Value),
      interpret a values = .ok v → (∀ q : ℚ, v ≠ Value.dec q) →
      interpret (ASTNode.unary op a) values = .error .unaryOperandNotDecimal ∧
        EvalError.unaryOperandNotDecimal.isTypeError = true) := by
  refine ⟨?_, ?_, rfl, ?_⟩
  · intro name args values v rest hname hargs hv
    have hhd : (v :: rest).head? = some v := rfl
    simp only [List.mem_cons, List.mem_singleton] at hname
    rcases hname with rfl | rfl | rfl | rfl | rfl | hfalse
    · refine ⟨.methodOnNonDecimal ("abs"), ?_, rfl⟩
      simp only [interpret, hargs, method1, hhd]
      cases v with
      | dec q => exact absurd rfl (hv q)
      | arr elems => rfl
      | bool b => rfl
      | undef => rfl
    · refine ⟨.methodOnNonDecimal ("ceil"), ?_, rfl⟩
      simp only [interpret, hargs, method1, hhd]
      cases v with
      | dec q => exact absurd rfl (hv q)
      | arr elems => rfl
      | bool b => rfl
      | undef => rfl
    · refine ⟨.methodOnNonDecimal ("floor"), ?_, rfl⟩
      simp only [interpret, hargs, method1, hhd]
      cases v with
      | dec q => exact absurd rfl (hv q)
      | arr elems => rfl
      | bool b => rfl
      | undef => rfl
    · refine ⟨.methodOnNonDecimal ("round"), ?_, rfl⟩
      simp only [interpret, hargs, method1, hhd]
      cases v with
      | dec q => exact absurd rfl (hv q)
      | arr elems => rfl
      | bool b => rfl
      | undef => rfl
    · refine ⟨.methodOnNonDecimal ("clamp"), ?_, rfl⟩
      simp only [interpret, hargs, hhd]
      cases v with
      | dec q => exact absurd rfl (hv q)
      | arr elems => rfl
      | bool b => rfl
      | undef => rfl
    · simp at hfalse
  · intro args values x v2 v3 hargs hvv
    refine ⟨.invalidDecimalValue, ?_, rfl⟩
    have h23 : ∀ q2 : ℚ, v2 = Value.dec q2 → ∀ q3 : ℚ, v3 ≠ Value.dec q3 := by
      intro q2 h2 q3 h3
      rcases hvv with hv2 | hv3
      · exact hv2 q2 h2
      · exact hv3 q3 h3
    simp only [interpret, hargs]
    cases v2 with
    | dec q2 =>
      cases v3 with
      | dec q3 => exact absurd rfl (h23 q2 rfl q3)
      | arr elems => rfl
      | bool b => rfl
      | undef => rfl
    | arr elems => rfl
    | bool b => rfl
    | undef => rfl
  · intro op a values v hv hnd
    refine ⟨?_, rfl⟩
    cases v with
    | dec q => exact absurd rfl (hnd q)
    | arr elems => simp only [interpret, hv]
    | bool b => simp only [interpret, hv]
    | undef => simp only [interpret, hv]

/-- Witness for C4: `abs` applied to an argument node that evaluates to
an (empty) interpolated array fails with a type error. -/
theorem C4_functions_reject_non_numeric_arguments_witness :
    ∃ e, interpret (ASTNode.function ("abs") [ASTNode.value 0]) [Value.arr []] =
      .error e ∧ e.isTypeError = true :=
  C4_functions_reject_non_numeric_arguments.1 ("abs") [ASTNode.value 0]
    [Value.arr []] (Value.arr []) [] (by simp) rfl
    (fun q hcon => Value.noConfusion hcon)

/-- Claim C8: `sum` requires its single argument to evaluate to an array;
the sum of an empty array is the additive identity zero, the sum of an
array of numeric instances is the fold of addition seeded with zero
(`Decimal.sum(0, ...arr)`), and a non-array argument fails with an error
classified as a type error.  The last conjunct runs the full pipeline on
`sum(${[1,2,3,4,5]})`. -/
theorem C8_sum_array_semantics :
    (∀ (a : ASTNode) (values : List Value),
      interpret a values = .ok (Value.arr []) →
      interpret (ASTNode.function ("sum") [a]) values = .ok (Value.dec 0)) ∧
    (∀ (a : ASTNode) (values : List Value) (qs : List ℚ),
      interpret a values = .ok (Value.arr (qs.map RawValue.dec)) →
      interpret (ASTNode.function ("sum") [a]) values =
        .ok (Value.dec (qs.foldl (fun x y => x + y) 0))) ∧
    (∀ (a : ASTNode) (values : List Value) (v : Value),
      interpret a values = .ok v → (∀ l, v ≠ Value.arr l) →
      interpret (ASTNode.function ("sum") [a]) values = .error .sumRequiresArray ∧
        EvalError.sumRequiresArray.isTypeError = true) ∧
    (math [] ⟨0, ["sum(", ")"]⟩
        [RawValue.arr [RawValue.num 1, RawValue.num 2, RawValue.num 3,
          RawValue.num 4, RawValue.num 5]]).1 = .ok (Value.dec 15) := by
  refine ⟨?_, ?_, ?_, ?_⟩
  · intro a values hv
    simp only [interpret, interpretArgs, hv, List.head?_cons, decimalSumList]
  · intro a values qs hv
    simp only [interpret, interpretArgs, hv, List.head?_cons]
    rw [decimalSumList_dec qs 0]
  · intro a values v hv hna
    refine ⟨?_, rfl⟩
    cases v with
    | arr elems => exact absurd rfl (hna elems)
    | dec q => simp only [interpret, interpretArgs, hv, List.head?_cons]
    | bool b => simp only [interpret, interpretArgs, hv, List.head?_cons]
    | undef => simp only [interpret, interpretArgs, hv, List.head?_cons]
  · have hp : parseMath [("sum("), (")")] =
        .ok (ASTNode.function ("sum") [ASTNode.value 0]) := rfl
    simp only [math, Cache.get]
    rw [hp]
    simp only [interpret, interpretArgs, preprocessValues, List.map_cons, List.map_nil,
      List.getD_cons_zero, List.head?_cons]
    simp only [decimalSumList, toDecimal]
    norm_num

/-- Witness for C8: `sum` of an argument evaluating to the empty
interpolated array yields zero. -/
theorem C8_sum_array_semantics_witness :
    interpret (ASTNode.function ("sum") [ASTNode.value 0]) [Value.arr []] =
      .ok (Value.dec 0) :=
  C8_sum_array_semantics.1 (ASTNode.value 0) [Value.arr []] rfl

/-- Claim C6: evaluation through the cache is equivalent to a fresh
tokenize-parse-evaluate, in both modes.  A first call with an empty cache
parses (the returned flag is `true`) and stores the AST under the
template's identity; a repeated call with the same identity does not
parse (flag `false`), leaves the cache unchanged, and its result on a
different value sequence equals what a fresh parse-and-evaluate with
those values would return. -/
theorem C6_cache_equivalent_to_fresh_parse :
    (∀ (tpl : Template) (values values' : List RawValue) (ast : ASTNode),
      parseMath tpl.strings = .ok ast →
      math [] tpl values =
        (interpret ast (preprocessValues values), [(tpl.id, ast)], true) ∧
      math [(tpl.id, ast)] tpl values' =
        (interpret ast (preprocessValues values'), [(tpl.id, ast)], false) ∧
      (math [(tpl.id, ast)] tpl values').1 = (math [] tpl values').1) ∧
    (∀ (tpl : Template) (values values' : List RawValue) (ast : ASTNode),
      parseIs tpl.strings = .ok ast →
      is [] tpl values =
        (interpret ast (preprocessValues values), [(tpl.id, ast)], true) ∧
      is [(tpl.id, ast)] tpl values' =
        (interpret ast (preprocessValues values'), [(tpl.id, ast)], false) ∧
      (is [(tpl.id, ast)] tpl values').1 = (is [] tpl values').1) := by
  constructor
  · intro tpl values values' ast h
    refine ⟨?_, ?_, ?_⟩
    · simp only [math, Cache.get, h]
    · simp only [math, Cache.get, beq_self_eq_true, if_true]
    · simp only [math, Cache.get, beq_self_eq_true, if_true, h]
  · intro tpl values values' ast h
    refine ⟨?_, ?_, ?_⟩
    · simp only [is, Cache.get, h]
    · simp only [is, Cache.get, beq_self_eq_true, if_true]
    · simp only [is, Cache.get, beq_self_eq_true, if_true, h]

/-- Witness for C6: the arithmetic template `1+2` — the first call
parses and caches, the second call replays the cached AST without
parsing and agrees with a fresh evaluation. -/
theorem C6_cache_equivalent_to_fresh_parse_witness :
    math [] ⟨0, ["1+2"]⟩ [] =
      (interpret (ASTNode.binary Op.add (ASTNode.number ("1")) (ASTNode.number ("2")))
        (preprocessValues []),
       [(0, ASTNode.binary Op.add (ASTNode.number ("1")) (ASTNode.number ("2")))], true) ∧
    math [(0, ASTNode.binary Op.add (ASTNode.number ("1")) (ASTNode.number ("2")))]
        ⟨0, ["1+2"]⟩ [] =
      (interpret (ASTNode.binary Op.add (ASTNode.number ("1")) (ASTNode.number ("2")))
        (preprocessValues []),
       [(0, ASTNode.binary Op.add (ASTNode.number ("1")) (ASTNode.number ("2")))], false) ∧
    (math [(0, ASTNode.binary Op.add (ASTNode.number ("1")) (ASTNode.number ("2")))]
        ⟨0, ["1+2"]⟩ []).1 = (math [] ⟨0, ["1+2"]⟩ []).1 :=
  C6_cache_equivalent_to_fresh_parse.1 ⟨0, ["1+2"]⟩ [] []
    (ASTNode.binary Op.add (ASTNode.number ("1")) (ASTNode.number ("2"))) rfl

/-- The `value` nodes of a successful `math`-mode parse reference only
interpolation slots of the template. -/
theorem parseMath_value_bound {strings : List String} {ast : ASTNode}
    (h : parseMath strings = .ok ast) :
    ∀ i ∈ nodeIdxs ast, i + 1 < strings.length := by
  simp only [parseMath] at h
  cases htok : tokenize strings with
  | error e => simp [htok] at h
  | ok tokens =>
    simp only [htok] at h
    cases hpe : parseExpression (fuelFor tokens) 0 true ⟨tokens, 0, Mode.math, false⟩ with
    | error e => simp [hpe] at h
    | ok pr =>
      obtain ⟨ast', p⟩ := pr
      simp only [hpe] at h
      obtain ⟨a1, a2, a3, a4, a5⟩ :=
        (parserInvariant (fuelFor tokens)).2.2.1 0 true ⟨tokens, 0, Mode.math, false⟩ ast' p hpe
      cases hcur : p.current
      case EOF =>
        simp only [hcur, Except.ok.injEq] at h
        subst h
        intro i hi
        exact tokenize_value_bound htok i (a5 i hi)
      all_goals simp [hcur] at h

/-- The `value` nodes of a successful `is`-mode parse reference only
interpolation slots of the template. -/
theorem parseIs_value_bound {strings : List String} {ast : ASTNode}
    (h : parseIs strings = .ok ast) :
    ∀ i ∈ nodeIdxs ast, i + 1 < strings.length := by
  simp only [parseIs] at h
  cases htok : tokenize strings with
  | error e => simp [htok] at h
  | ok tokens =>
    simp only [htok] at h
    cases hpe : parseExpression (fuelFor tokens) 0 true ⟨tokens, 0, Mode.is, false⟩ with
    | error e => simp [hpe] at h
    | ok pr =>
      obtain ⟨ast', p⟩ := pr
      simp only [hpe] at h
      obtain ⟨a1, a2, a3, a4, a5⟩ :=
        (parserInvariant (fuelFor tokens)).2.2.1 0 true ⟨tokens, 0, Mode.is, false⟩ ast' p hpe
      cases hcur : p.current
      case EOF =>
        simp only [hcur] at h
        split_ifs at h with hfl
        simp only [Except.ok.injEq] at h
        subst h
        intro i hi
        exact tokenize_value_bound htok i (a5 i hi)
      all_goals simp [hcur] at h

/-- Claim C10: for a fragment sequence with `len(fragments) =
len(values) + 1`, every `VALUE` token carries an index `i` with
`i < len(values)`, and therefore every `value` node of the parsed AST (in
either mode) references a position inside the preprocessed value
sequence, so interpretation never reads a value index out of bounds. -/
theorem C10_value_indices_in_range :
    (∀ (strings : List String) (ts : List Token),
      tokenize strings = .ok ts → ∀ j ∈ tokenIdxs ts, j + 1 < strings.length) ∧
    (∀ (strings : List String) (values : List RawValue) (ast : ASTNode),
      strings.length = values.length + 1 →
      parseMath strings = .ok ast →
      ∀ i ∈ nodeIdxs ast, i < (preprocessValues values).length) ∧
    (∀ (strings : List String) (values : List RawValue) (ast : ASTNode),
      strings.length = values.length + 1 →
      parseIs strings = .ok ast →
      ∀ i ∈ nodeIdxs ast, i < (preprocessValues values).length) := by
  refine ⟨?_, ?_, ?_⟩
  · intro strings ts h j hj
    exact tokenize_value_bound h j hj
  · intro strings values ast hlen h i hi
    have hb := parseMath_value_bound h i hi
    have hml : (preprocessValues values).length = values.length := by
      simp [preprocessValues]
    omega
  · intro strings values ast hlen h i hi
    have hb := parseIs_value_bound h i hi
    have hml : (preprocessValues values).length = values.length := by
      simp [preprocessValues]
    omega

/-- Witness for C10: the template `${a} + ${b}` has two fragmentsand one
operator between its two interpolation slots; its `VALUE` token of index
1 is in range, and the parsed AST's `value 1` node references a position
inside the two preprocessed values. -/
theorem C10_value_indices_in_range_witness :
    1 + 1 < (["", " + ", ""] : List String).length ∧
    1 < (preprocessValues [RawValue.num 1, RawValue.num 2]).length :=
  ⟨C10_value_indices_in_range.1 ["", " + ", ""]
      [Token.VALUE 0, Token.OPERATOR Op.add, Token.VALUE 1, Token.EOF] rfl 1 (by decide),
    C10_value_indices_in_range.2.1 ["", " + ", ""] [RawValue.num 1, RawValue.num 2]
      (ASTNode.binary Op.add (ASTNode.value 0) (ASTNode.value 1)) rfl rfl 1 (by decide)⟩
